import Mathlib

/-!
Verification of the s3-localstorage key-value adaptor.

The development shallowly embeds the adaptor in src/index.ts: the
single-object operations (setItem, getItem, removeItem), the link helpers,
and the cursor-paginated drain loop shared by list() and clear().
Node byte buffers are modelled as lists of natural numbers, byte streams as
lists of chunks, and the S3 client as explicit response/state functions.
-/

namespace S3LS

/-- A Node Buffer: a sequence of byte values. -/
abbrev Buffer := List Nat

/-- UTF-8 encoding of one Unicode code point, as in the wire format the
backend stores for a text body. -/
def utf8EncodeCodePoint (n : Nat) : List Nat :=
  if n < 0x80 then
    [n]
  else if n < 0x800 then
    [0xC0 + n / 64, 0x80 + n % 64]
  else if n < 0x10000 then
    [0xE0 + n / 4096, 0x80 + n / 64 % 64, 0x80 + n % 64]
  else
    [0xF0 + n / 262144, 0x80 + n / 4096 % 64, 0x80 + n / 64 % 64, 0x80 + n % 64]

/-- UTF-8 encoding of a string. -/
def utf8Encode (s : String) : Buffer :=
  s.data.flatMap (fun c => utf8EncodeCodePoint c.toNat)

/-- The replacement character produced for malformed byte sequences. -/
def replacementChar : Char := Char.ofNat 0xFFFD

/-- Whether a byte is a UTF-8 continuation byte. -/
def isContByte (b : Nat) : Bool := 0x80 ≤ b && b < 0xC0

/-- One step of UTF-8 decoding: given the lead byte and the following
bytes, produce the decoded character and the bytes left over. Malformed
input produces a replacement character, as a lenient text decoder does. -/
def utf8Step (b0 : Nat) (rest : List Nat) : Char × List Nat :=
  if b0 < 0x80 then
    (Char.ofNat b0, rest)
  else if b0 < 0xC0 then
    (replacementChar, rest)
  else if b0 < 0xE0 then
    match rest with
    | b1 :: rest1 =>
      if isContByte b1 then
        (Char.ofNat ((b0 - 0xC0) * 64 + (b1 - 0x80)), rest1)
      else
        (replacementChar, b1 :: rest1)
    | [] => (replacementChar, [])
  else if b0 < 0xF0 then
    match rest with
    | b1 :: b2 :: rest2 =>
      if isContByte b1 && isContByte b2 then
        (Char.ofNat ((b0 - 0xE0) * 4096 + (b1 - 0x80) * 64 + (b2 - 0x80)), rest2)
      else
        (replacementChar, b1 :: b2 :: rest2)
    | _ => (replacementChar, [])
  else if b0 < 0xF8 then
    match rest with
    | b1 :: b2 :: b3 :: rest3 =>
      if isContByte b1 && isContByte b2 && isContByte b3 then
        (Char.ofNat
            ((b0 - 0xF0) * 262144 + (b1 - 0x80) * 4096 + (b2 - 0x80) * 64 +
              (b3 - 0x80)),
          rest3)
      else
        (replacementChar, b1 :: b2 :: b3 :: rest3)
    | _ => (replacementChar, [])
  else
    (replacementChar, rest)

/-- A decode step never produces more bytes than it was given. -/
theorem utf8Step_length_le (b0 : Nat) (rest : List Nat) :
    (utf8Step b0 rest).2.length ≤ rest.length := by
  rw [utf8Step.eq_def]
  repeat' split
  all_goals simp_all [List.length_cons]
  all_goals omega

/-- UTF-8 decoding of a byte sequence into characters. -/
def utf8DecodeChars (l : List Nat) : List Char :=
  match l with
  | [] => []
  | b0 :: rest => (utf8Step b0 rest).1 :: utf8DecodeChars (utf8Step b0 rest).2
termination_by l.length
decreasing_by
  simp only [List.length_cons]
  have := utf8Step_length_le b0 rest
  omega

/-- UTF-8 decoding of a buffer into a string (Buffer.toString with the
utf8 encoding). -/
def utf8Decode (b : Buffer) : String := ⟨utf8DecodeChars b⟩

theorem utf8DecodeChars_nil : utf8DecodeChars [] = [] := by
  rw [utf8DecodeChars]

theorem utf8DecodeChars_cons (b0 : Nat) (rest : List Nat) :
    utf8DecodeChars (b0 :: rest) =
      (utf8Step b0 rest).1 :: utf8DecodeChars (utf8Step b0 rest).2 := by
  rw [utf8DecodeChars]

/-- One-step decoder equation for a one-byte sequence. -/
theorem utf8DecodeChars_one (b0 : Nat) (bs : List Nat) (h : b0 < 0x80) :
    utf8DecodeChars (b0 :: bs) = Char.ofNat b0 :: utf8DecodeChars bs := by
  rw [utf8DecodeChars_cons, utf8Step.eq_def]
  simp only [if_pos h]

/-- One-step decoder equation for a two-byte sequence. -/
theorem utf8DecodeChars_two (b0 b1 : Nat) (bs : List Nat)
    (h0 : 0xC0 ≤ b0) (h0' : b0 < 0xE0) (h1 : isContByte b1 = true) :
    utf8DecodeChars (b0 :: b1 :: bs) =
      Char.ofNat ((b0 - 0xC0) * 64 + (b1 - 0x80)) :: utf8DecodeChars bs := by
  rw [utf8DecodeChars_cons, utf8Step.eq_def]
  simp only [if_neg (by omega : ¬ b0 < 0x80), if_neg (by omega : ¬ b0 < 0xC0),
    if_pos h0', h1, if_true]

/-- One-step decoder equation for a three-byte sequence. -/
theorem utf8DecodeChars_three (b0 b1 b2 : Nat) (bs : List Nat)
    (h0 : 0xE0 ≤ b0) (h0' : b0 < 0xF0)
    (h1 : isContByte b1 = true) (h2 : isContByte b2 = true) :
    utf8DecodeChars (b0 :: b1 :: b2 :: bs) =
      Char.ofNat ((b0 - 0xE0) * 4096 + (b1 - 0x80) * 64 + (b2 - 0x80)) ::
        utf8DecodeChars bs := by
  rw [utf8DecodeChars_cons, utf8Step.eq_def]
  simp only [if_neg (by omega : ¬ b0 < 0x80), if_neg (by omega : ¬ b0 < 0xC0),
    if_neg (by omega : ¬ b0 < 0xE0), if_pos h0', h1, h2, Bool.and_self, if_true]

/-- One-step decoder equation for a four-byte sequence. -/
theorem utf8DecodeChars_four (b0 b1 b2 b3 : Nat) (bs : List Nat)
    (h0 : 0xF0 ≤ b0) (h0' : b0 < 0xF8)
    (h1 : isContByte b1 = true) (h2 : isContByte b2 = true)
    (h3 : isContByte b3 = true) :
    utf8DecodeChars (b0 :: b1 :: b2 :: b3 :: bs) =
      Char.ofNat
          ((b0 - 0xF0) * 262144 + (b1 - 0x80) * 4096 + (b2 - 0x80) * 64 +
            (b3 - 0x80)) ::
        utf8DecodeChars bs := by
  rw [utf8DecodeChars_cons, utf8Step.eq_def]
  simp only [if_neg (by omega : ¬ b0 < 0x80), if_neg (by omega : ¬ b0 < 0xC0),
    if_neg (by omega : ¬ b0 < 0xE0), if_neg (by omega : ¬ b0 < 0xF0),
    if_pos h0', h1, h2, h3, Bool.and_self, if_true]

/-- Decoding inverts encoding, one character at a time. -/
theorem utf8DecodeChars_encodeCodePoint (c : Char) (bs : List Nat) :
    utf8DecodeChars (utf8EncodeCodePoint c.toNat ++ bs) = c :: utf8DecodeChars bs := by
  have hlt : c.toNat < 0x110000 := by
    rcases c.valid with h | h
    · exact Nat.lt_trans h (by norm_num)
    · exact h.2
  have hofNat : Char.ofNat c.toNat = c := Char.ofNat_toNat c
  set n := c.toNat with hn
  have hcont : ∀ m : Nat, m < 64 → isContByte (0x80 + m) = true := by
    intro m hm
    simp only [isContByte, Bool.and_eq_true, decide_eq_true_eq]
    omega
  by_cases h1 : n < 0x80
  · rw [utf8EncodeCodePoint, if_pos h1, List.cons_append, List.nil_append,
      utf8DecodeChars_one n bs h1, hofNat]
  · by_cases h2 : n < 0x800
    · rw [utf8EncodeCodePoint, if_neg h1, if_pos h2, List.cons_append,
        List.cons_append, List.nil_append,
        utf8DecodeChars_two _ _ _ (by omega) (by omega) (hcont _ (by omega)),
        show (0xC0 + n / 64 - 0xC0) * 64 + (0x80 + n % 64 - 0x80) = n by omega, hofNat]
    · by_cases h3 : n < 0x10000
      · rw [utf8EncodeCodePoint, if_neg h1, if_neg h2, if_pos h3, List.cons_append,
          List.cons_append, List.cons_append, List.nil_append,
          utf8DecodeChars_three _ _ _ _ (by omega) (by omega)
            (hcont _ (by omega)) (hcont _ (by omega)),
          show (0xE0 + n / 4096 - 0xE0) * 4096 + (0x80 + n / 64 % 64 - 0x80) * 64 +
            (0x80 + n % 64 - 0x80) = n by omega, hofNat]
      · rw [utf8EncodeCodePoint, if_neg h1, if_neg h2, if_neg h3, List.cons_append,
          List.cons_append, List.cons_append, List.cons_append, List.nil_append,
          utf8DecodeChars_four _ _ _ _ _ (by omega) (by omega)
            (hcont _ (by omega)) (hcont _ (by omega)) (hcont _ (by omega)),
          show (0xF0 + n / 262144 - 0xF0) * 262144 + (0x80 + n / 4096 % 64 - 0x80) * 4096 +
            (0x80 + n / 64 % 64 - 0x80) * 64 + (0x80 + n % 64 - 0x80) = n by omega, hofNat]

/-- Decoding inverts encoding on whole character lists. -/
theorem utf8DecodeChars_flatMap (l : List Char) :
    utf8DecodeChars (l.flatMap (fun c => utf8EncodeCodePoint c.toNat)) = l := by
  induction l with
  | nil => simp only [List.flatMap_nil, utf8DecodeChars_nil]
  | cons c cs ih =>
    simp only [List.flatMap_cons, utf8DecodeChars_encodeCodePoint, ih]

/-- Round trip: decoding the UTF-8 encoding of a string restores it. -/
theorem utf8Decode_utf8Encode (s : String) : utf8Decode (utf8Encode s) = s := by
  simp only [utf8Decode, utf8Encode, utf8DecodeChars_flatMap]

/-! ## Data model of the backend protocol -/

/-- streamToBuffer from src/index.ts: a Node readable stream is a sequence
of byte chunks pushed by data events; the helper collects every chunk and
concatenates them into one buffer on the end event. -/
def streamToBuffer (chunks : List Buffer) : Buffer := chunks.flatten

/-- A thrown backend error, as the adaptor sees it: an object that may
carry a Code field. -/
structure S3Error where
  Code : Option String
deriving DecidableEq, Repr

/-- isNoSuchKeyError from src/index.ts: the error is an object carrying a
Code field whose value is the NoSuchKey code. -/
def isNoSuchKeyError (e : S3Error) : Bool :=
  match e.Code with
  | some code => code == "NoSuchKey"
  | none => false

/-- The body of a put request: the TS union of a text string and raw
bytes. -/
inductive Body where
  | str : String → Body
  | bytes : Buffer → Body
deriving DecidableEq, Repr

/-- The byte content an object stored with a given body has. -/
def Body.contentBytes : Body → Buffer
  | .str s => utf8Encode s
  | .bytes b => b

/-- PutObjectCommand input: the fields the adaptor sets or lets the caller
override. Metadata stands for the non-identity passthrough attributes. -/
structure PutObjectCommandInput where
  Bucket : String
  Key : String
  Body : Option Body
  ContentType : Option String
  Metadata : Option (List (String × String))
deriving DecidableEq, Repr

/-- The option bag of setItem: every PutObjectCommandInput field except
Bucket, Key and Body (the TS Omit type). -/
structure PutOpts where
  ContentType : Option String
  Metadata : Option (List (String × String))
deriving DecidableEq, Repr

structure GetObjectCommandInput where
  Bucket : String
  Key : String
deriving DecidableEq, Repr

/-- GetObjectCommand output: the body byte stream, as its chunk list. -/
structure GetObjectCommandOutput where
  Body : List Buffer
deriving DecidableEq, Repr

structure DeleteObjectCommandInput where
  Bucket : String
  Key : String
deriving DecidableEq, Repr

/-- One entry of a listing page; the SDK key field is optional. -/
structure S3Object where
  Key : Option String
deriving DecidableEq, Repr

/-- ListObjectsV2Command output: the fields the drain loop reads. -/
structure ListObjectsV2CommandOutput where
  Contents : Option (List S3Object)
  IsTruncated : Option Bool
  NextContinuationToken : Option String
deriving DecidableEq, Repr

/-! ## Single-object operations -/

/-- The put command setItem builds: identity fields come from the call
itself; a text body defaults the content type to plain text; the option
bag is spread last, so its fields override the defaults. -/
def setItemCommand (bucketName key : String) (value : Body) (opts : PutOpts) :
    PutObjectCommandInput :=
  { Bucket := bucketName
    Key := key
    Body := some value
    ContentType :=
      match opts.ContentType with
      | some c => some c
      | none =>
        match value with
        | .str _ => some "text/plain"
        | .bytes _ => none
    Metadata := opts.Metadata }

/-- setItem sends exactly one put request. -/
def setItemRequests (bucketName key : String) (value : Body) (opts : PutOpts) :
    List PutObjectCommandInput :=
  [setItemCommand bucketName key value opts]

/-- The value getItem returns on success: raw bytes under the null
encoding, text otherwise. -/
inductive ItemValue where
  | buf : Buffer → ItemValue
  | str : String → ItemValue
deriving DecidableEq, Repr

/-- The one buffer encoding the adaptor exercises; Buffer.toString with it
is UTF-8 decoding. -/
inductive BufferEncoding where
  | utf8
deriving DecidableEq, Repr

/-- Buffer.toString under an encoding. -/
def bufferToString (b : Buffer) : BufferEncoding → String
  | .utf8 => utf8Decode b

/-- getItem from src/index.ts, parameterized by the backend response to
its single get request: on success the body stream is drained into one
buffer and, unless the encoding is null, decoded to text; a NoSuchKey
error becomes an undefined result; any other error is rethrown. -/
def getItem (send : GetObjectCommandInput → Except S3Error GetObjectCommandOutput)
    (bucketName key : String) (encoding : Option BufferEncoding) :
    Except S3Error (Option ItemValue) :=
  match send { Bucket := bucketName, Key := key } with
  | .ok valueData =>
    let valueBuffer := streamToBuffer valueData.Body
    match encoding with
    | none => .ok (some (.buf valueBuffer))
    | some enc => .ok (some (.str (bufferToString valueBuffer enc)))
  | .error e => if isNoSuchKeyError e then .ok none else .error e

/-- The try/catch wrapper of removeItem: a NoSuchKey failure of the delete
request is swallowed into success; anything else is rethrown. -/
def removeItemResult (resp : Except S3Error Unit) : Except S3Error Unit :=
  match resp with
  | .ok _ => .ok ()
  | .error e => if isNoSuchKeyError e then .ok () else .error e

/-! ## A simulated honest backend over one bucket -/

/-- The remote bucket state: keyed objects, most recent write first. -/
abbrev Store := List (String × Body)

def storeGet : Store → String → Option Body
  | [], _ => none
  | (k, v) :: rest, key => if k = key then some v else storeGet rest key

def storeErase (s : Store) (key : String) : Store :=
  s.filter (fun kv => kv.1 ≠ key)

def storePut (s : Store) (key : String) (v : Body) : Store :=
  (key, v) :: storeErase s key

/-- The backend get handler: serves the stored bytes as a one-chunk
stream, or raises the NoSuchKey code for an absent key. -/
def honestGet (store : Store) (cmd : GetObjectCommandInput) :
    Except S3Error GetObjectCommandOutput :=
  match storeGet store cmd.Key with
  | some v => .ok { Body := [v.contentBytes] }
  | none => .error { Code := some "NoSuchKey" }

/-- The backend delete handler: removes a present key, or raises the
NoSuchKey code and leaves the bucket unchanged. -/
def honestDelete (store : Store) (cmd : DeleteObjectCommandInput) :
    Except S3Error Unit × Store :=
  match storeGet store cmd.Key with
  | some _ => (.ok (), storeErase store cmd.Key)
  | none => (.error { Code := some "NoSuchKey" }, store)

/-- setItem run against the honest backend: its one put request creates or
overwrites the object at the key. -/
def setItemS (store : Store) (bucketName key : String) (value : Body)
    (opts : PutOpts) : Store :=
  match (setItemCommand bucketName key value opts).Body with
  | some v => storePut store (setItemCommand bucketName key value opts).Key v
  | none => store

/-- getItem run against the honest backend. -/
def getItemS (store : Store) (bucketName key : String)
    (encoding : Option BufferEncoding) : Except S3Error (Option ItemValue) :=
  getItem (honestGet store) bucketName key encoding

/-- removeItem run against the honest backend: result and new bucket
state. -/
def removeItemS (store : Store) (bucketName key : String) :
    Except S3Error Unit × Store :=
  let sent := honestDelete store { Bucket := bucketName, Key := key }
  (removeItemResult sent.1, sent.2)

/-! ## The pagination drain of list() and clear()

Both loops walk the listing endpoint with a continuation token, starting
from an absent token, and keep going while the response reports
IsTruncated. The backend is a function from the token the loop passes to
the page response it returns. Fuel bounds the number of page requests the
loop may issue; a none result means the loop was still running when the
fuel ran out, so a result of none at every fuel is nontermination. -/

/-- The keys one page contributes to the list() generator: the Contents
guard of the loop body, then one yield per entry whose Key field is
truthy (present and non-empty). -/
def listPageKeys (contents : Option (List S3Object)) : List String :=
  match contents with
  | some objects =>
    if objects.length > 0 then
      objects.filterMap (fun o =>
        match o.Key with
        | some k => if k = "" then none else some k
        | none => none)
    else []
  | none => []

/-- The list() drain: issues one page request per iteration and collects
the yielded keys in order. -/
def listLoop (backend : Option String → ListObjectsV2CommandOutput) :
    Option String → Nat → Option (List String)
  | _, 0 => none
  | token, fuel + 1 =>
    let listResult := backend token
    let keys := listPageKeys listResult.Contents
    let isTruncated := listResult.IsTruncated.getD false
    if isTruncated then
      match listLoop backend listResult.NextContinuationToken fuel with
      | some rest => some (keys ++ rest)
      | none => none
    else
      some keys

/-- The batch-delete request clear() issues for one page: none when the
page has no entries, otherwise every entry key, unfiltered, in page
order. -/
def clearPageBatch (contents : Option (List S3Object)) :
    Option (List (Option String)) :=
  match contents with
  | some objects =>
    if objects.length > 0 then some (objects.map S3Object.Key) else none
  | none => none

/-- The clear() drain: issues one page request per iteration, one
batch-delete per non-empty page, and returns the trace of batch-delete
requests in the order they were sent. -/
def clearLoop (backend : Option String → ListObjectsV2CommandOutput) :
    Option String → Nat → Option (List (List (Option String)))
  | _, 0 => none
  | token, fuel + 1 =>
    let listResult := backend token
    let batch := clearPageBatch listResult.Contents
    let isTruncated := listResult.IsTruncated.getD false
    let rest :=
      if isTruncated then clearLoop backend listResult.NextContinuationToken fuel
      else some []
    match rest with
    | some tail =>
      some
        (match batch with
         | some b => b :: tail
         | none => tail)
    | none => none

/-! ## A simulated well-formed paginated backend -/

/-- The opaque continuation token standing for page index i. -/
def natCursor (i : Nat) : String := String.mk (List.replicate i 'a')

/-- The page index a token stands for. -/
def cursorIndex (s : String) : Nat := s.length

/-- The listing response for page i of a pagination: the page keys as
entries, truncated iff pages remain, next token present iff truncated. -/
def pageAt (pages : List (List String)) (i : Nat) : ListObjectsV2CommandOutput :=
  { Contents := some (((pages.getD i []).map (fun k => { Key := some k })))
    IsTruncated := some (decide (i + 1 < pages.length))
    NextContinuationToken :=
      if i + 1 < pages.length then some (natCursor (i + 1)) else none }

/-- A well-formed backend that serves a fixed pagination of the bucket:
the first request (absent token) gets page 0, and each token returned
with a truncated page leads to the next page. -/
def paginationBackend (pages : List (List String)) :
    Option String → ListObjectsV2CommandOutput
  | none => pageAt pages 0
  | some token => pageAt pages (cursorIndex token)

/-! ## Drain lemmas -/

theorem cursorIndex_natCursor (i : Nat) : cursorIndex (natCursor i) = i := by
  simp [cursorIndex, natCursor, String.length]

/-- Filtering for truthy keys keeps a list of non-empty keys intact. -/
theorem filterMap_truthy (l : List String) (h : ∀ k ∈ l, k ≠ "") :
    l.filterMap (fun k => if k = "" then none else some k) = l := by
  induction l with
  | nil => rfl
  | cons a as ih =>
    rw [List.filterMap_cons, if_neg (h a (by simp))]
    rw [ih (fun k hk => h k (by simp [hk]))]

/-- The keys list() yields from a simulated page of non-empty keys. -/
theorem listPageKeys_map_some (l : List String) (h : ∀ k ∈ l, k ≠ "") :
    listPageKeys (some (l.map (fun k => { Key := some k }))) = l := by
  cases l with
  | nil => rfl
  | cons a as =>
    simp only [listPageKeys, List.filterMap_map, List.length_map, List.length_cons]
    rw [if_pos (Nat.succ_pos as.length)]
    exact filterMap_truthy (a :: as) h

/-- The non-empty guard of the list() loop body is redundant for the
yielded keys: an empty entry list yields nothing either way. -/
theorem listPageKeys_eq_filterMap (l : List S3Object) :
    listPageKeys (some l) =
      l.filterMap (fun o =>
        match o.Key with
        | some k => if k = "" then none else some k
        | none => none) := by
  cases l with
  | nil => rfl
  | cons a as =>
    simp only [listPageKeys, List.length_cons]
    rw [if_pos (Nat.succ_pos as.length)]

/-- The batch-delete request clear() builds from a simulated page. -/
theorem clearPageBatch_map_some (l : List String) :
    clearPageBatch (some (l.map (fun k => { Key := some k }))) =
      if l.length > 0 then some (l.map some) else none := by
  simp only [clearPageBatch, List.length_map, List.map_map]
  rfl

/-- Reading page i of a pagination, the list() drain with enough fuel for
the remaining pages yields exactly the keys of pages i and onward, in
order. -/
theorem listLoop_paginationBackend (pages : List (List String))
    (hk : ∀ k ∈ pages.flatten, k ≠ "") :
    ∀ (fuel i : Nat) (token : Option String),
      paginationBackend pages token = pageAt pages i →
      pages.length ≤ i + fuel → 0 < fuel →
      listLoop (paginationBackend pages) token fuel =
        some ((pages.drop i).flatten) := by
  intro fuel
  induction fuel with
  | zero => intro i token _ _ h0; omega
  | succ f ih =>
    intro i token htok hle _
    rw [listLoop, htok]
    simp only [pageAt, Option.getD_some]
    by_cases hlt : i + 1 < pages.length
    · have hi : i < pages.length := by omega
      have hgetD : pages.getD i [] = pages[i] := by
        simp [List.getD_eq_getElem?_getD, List.getElem?_eq_getElem hi]
      have hkeys : listPageKeys (some ((pages.getD i []).map
          (fun k => { Key := some k }))) = pages.getD i [] := by
        refine listPageKeys_map_some _ (fun k hk' => hk k ?_)
        rw [hgetD] at hk'
        exact List.mem_flatten_of_mem (by simp [hi]) hk'
      rw [decide_eq_true hlt, if_pos rfl, if_pos hlt]
      rw [ih (i + 1) (some (natCursor (i + 1)))
        (by rw [paginationBackend, cursorIndex_natCursor])
        (by omega) (by omega)]
      rw [hkeys, hgetD, List.drop_eq_getElem_cons hi, List.flatten_cons]
    · rw [decide_eq_false hlt, if_neg (by simp)]
      by_cases hi : i < pages.length
      · have hgetD : pages.getD i [] = pages[i] := by
          simp [List.getD_eq_getElem?_getD, List.getElem?_eq_getElem hi]
        have hkeys : listPageKeys (some ((pages.getD i []).map
            (fun k => { Key := some k }))) = pages.getD i [] := by
          refine listPageKeys_map_some _ (fun k hk' => hk k ?_)
          rw [hgetD] at hk'
          exact List.mem_flatten_of_mem (by simp [hi]) hk'
        rw [hkeys, hgetD, List.drop_eq_getElem_cons hi,
          List.drop_eq_nil_of_le (by omega : pages.length ≤ i + 1),
          List.flatten_cons, List.flatten_nil, List.append_nil]
      · have hgetD : pages.getD i [] = [] := by
          simp [List.getD_eq_getElem?_getD, List.getElem?_eq_none
            (by omega : pages.length ≤ i)]
        rw [hgetD, List.drop_eq_nil_of_le (by omega : pages.length ≤ i),
          List.flatten_nil]
        rfl

/-- The batch-delete requests clear() issues for a pagination: one per
non-empty page, in page order, holding that page's keys. -/
def pagesBatches (pages : List (List String)) : List (List (Option String)) :=
  pages.filterMap (fun p => if p.length > 0 then some (p.map some) else none)

/-- Reading page i of a pagination, the clear() drain with enough fuel
issues exactly one batch-delete per remaining non-empty page. -/
theorem clearLoop_paginationBackend (pages : List (List String)) :
    ∀ (fuel i : Nat) (token : Option String),
      paginationBackend pages token = pageAt pages i →
      pages.length ≤ i + fuel → 0 < fuel →
      clearLoop (paginationBackend pages) token fuel =
        some (pagesBatches (pages.drop i)) := by
  intro fuel
  induction fuel with
  | zero => intro i token _ _ h0; omega
  | succ f ih =>
    intro i token htok hle _
    rw [clearLoop, htok]
    simp only [pageAt, Option.getD_some, clearPageBatch_map_some]
    by_cases hlt : i + 1 < pages.length
    · have hi : i < pages.length := by omega
      have hgetD : pages.getD i [] = pages[i] := by
        simp [List.getD_eq_getElem?_getD, List.getElem?_eq_getElem hi]
      rw [decide_eq_true hlt, if_pos rfl, if_pos hlt]
      rw [ih (i + 1) (some (natCursor (i + 1)))
        (by rw [paginationBackend, cursorIndex_natCursor])
        (by omega) (by omega)]
      rw [hgetD, List.drop_eq_getElem_cons hi]
      simp only [pagesBatches, List.filterMap_cons]
      by_cases hp : (pages[i]).length > 0
      · rw [if_pos hp]
      · rw [if_neg hp]
    · rw [decide_eq_false hlt, if_neg (by simp)]
      by_cases hi : i < pages.length
      · have hgetD : pages.getD i [] = pages[i] := by
          simp [List.getD_eq_getElem?_getD, List.getElem?_eq_getElem hi]
        rw [hgetD, List.drop_eq_getElem_cons hi,
          List.drop_eq_nil_of_le (by omega : pages.length ≤ i + 1)]
        simp only [pagesBatches, List.filterMap_cons, List.filterMap_nil]
        by_cases hp : (pages[i]).length > 0
        · rw [if_pos hp]
        · rw [if_neg hp]
      · have hgetD : pages.getD i [] = [] := by
          simp [List.getD_eq_getElem?_getD, List.getElem?_eq_none
            (by omega : pages.length ≤ i)]
        rw [hgetD, List.drop_eq_nil_of_le (by omega : pages.length ≤ i)]
        rfl

/-! ## Effect of the batch deletes on the bucket -/

/-- The effect of one batch-delete request on the bucket: every listed key
is removed. -/
def batchDeleteApply (bucket : List String) (req : List (Option String)) :
    List String :=
  bucket.filter (fun k => decide (some k ∉ req))

/-- The bucket left after a trace of batch-delete requests. -/
def applyBatches (bucket : List String) (trace : List (List (Option String))) :
    List String :=
  trace.foldl batchDeleteApply bucket

/-- A bucket whose every key occurs in some request of the trace is empty
after the trace is applied. -/
theorem applyBatches_eq_nil (trace : List (List (Option String))) :
    ∀ bucket : List String,
      (∀ k ∈ bucket, ∃ req ∈ trace, some k ∈ req) →
      applyBatches bucket trace = [] := by
  induction trace with
  | nil =>
    intro bucket h
    have : bucket = [] := by
      rw [List.eq_nil_iff_forall_not_mem]
      intro k hk
      rcases h k hk with ⟨req, hreq, _⟩
      exact absurd hreq (List.not_mem_nil req)
    simp [this, applyBatches]
  | cons r rs ih =>
    intro bucket h
    show applyBatches (batchDeleteApply bucket r) rs = []
    refine ih _ (fun k hk => ?_)
    have hk' := List.mem_filter.mp hk
    have hnot : some k ∉ r := of_decide_eq_true hk'.2
    rcases h k hk'.1 with ⟨req, hreq, hmem⟩
    rcases List.mem_cons.mp hreq with hr | hr
    · exact absurd (hr ▸ hmem) hnot
    · exact ⟨req, hr, hmem⟩

/-- Every key of the paginated bucket occurs in the batch-delete request
of its page. -/
theorem mem_pagesBatches_of_mem_flatten (pages : List (List String))
    (k : String) (hk : k ∈ pages.flatten) :
    ∃ req ∈ pagesBatches pages, some k ∈ req := by
  rcases List.mem_flatten.mp hk with ⟨p, hp, hkp⟩
  refine ⟨p.map some, ?_, List.mem_map_of_mem some hkp⟩
  refine List.mem_filterMap.mpr ⟨p, hp, ?_⟩
  rw [if_pos]
  exact List.length_pos.mpr (fun h => by simp [h] at hkp)

/-! ## Backends exercising the edge cases -/

/-- A backend that violates the listing contract on the first page: it
reports the listing truncated but supplies no continuation token. -/
def contractViolatingBackend : Option String → ListObjectsV2CommandOutput :=
  fun _ =>
    { Contents := some []
      IsTruncated := some true
      NextContinuationToken := none }

/-- A backend whose single page is served untruncated, whatever entries it
carries. -/
def onePageBackend (entries : List S3Object) :
    Option String → ListObjectsV2CommandOutput :=
  fun _ =>
    { Contents := some entries
      IsTruncated := some false
      NextContinuationToken := none }

/-! ## Public link construction -/

/-- The resolved endpoint the client configuration provides. -/
structure Endpoint where
  protocol : String
  hostname : String
  port : Option Nat
deriving DecidableEq, Repr

/-- The WHATWG URL object getItemPublicLink builds and mutates; the port
is none while unset. -/
structure URLObj where
  protocol : String
  hostname : String
  port : Option String
  pathname : String
deriving DecidableEq, Repr

/-- Serialization of the URL object. -/
def URLObj.href (u : URLObj) : String :=
  u.protocol ++ "//" ++ u.hostname ++
    (match u.port with
     | some p => ":" ++ p
     | none => "") ++ u.pathname

/-- getItemPublicLink from src/index.ts: pure string composition, no
request is sent. With no configured endpoint it returns undefined;
otherwise it builds a URL from the endpoint protocol and hostname, sets
the port when the endpoint has a truthy one, sets the pathname to
bucket/key (the URL setter normalizes it to start with a slash), and
returns the href. -/
def getItemPublicLink (endpoint : Option Endpoint) (bucketName key : String) :
    Option String :=
  match endpoint with
  | some ep =>
    let endpointUrl : URLObj :=
      { protocol := ep.protocol, hostname := ep.hostname, port := none
        pathname := "/" }
    let endpointUrl :=
      match ep.port with
      | some p =>
        if p ≠ 0 then { endpointUrl with port := some (toString p) } else endpointUrl
      | none => endpointUrl
    let endpointUrl :=
      { endpointUrl with pathname := "/" ++ (bucketName ++ "/" ++ key) }
    some endpointUrl.href
  | none => none

/-! ## Store lemmas -/

theorem storeGet_storePut (s : Store) (k : String) (v : Body) :
    storeGet (storePut s k v) k = some v := by
  simp [storePut, storeGet]

theorem storeGet_storeErase_self (s : Store) (k : String) :
    storeGet (storeErase s k) k = none := by
  induction s with
  | nil => rfl
  | cons kv rest ih =>
    by_cases h : kv.1 = k
    · simpa [storeErase, h] using ih
    · simpa [storeErase, storeGet, h] using ih

/-! ## Claim theorems -/

/-- Claim C4: for every key k and text value v, setItem(k, v) followed by
getItem(k), with no intervening mutation of k, returns v. Run against the
honest simulated backend: the put stores the value; the get serves its
byte content, which the default UTF-8 decoding restores to v. -/
theorem setItem_then_getItem_roundtrip (store : Store) (bucketName key : String)
    (v : String) (opts : PutOpts) :
    getItemS (setItemS store bucketName key (.str v) opts) bucketName key
        (some .utf8) =
      .ok (some (.str v)) := by
  have hput : setItemS store bucketName key (.str v) opts =
      storePut store key (.str v) := rfl
  rw [getItemS, getItem, hput]
  have hget : honestGet (storePut store key (.str v))
      { Bucket := bucketName, Key := key } =
      .ok { Body := [utf8Encode v] } := by
    rw [honestGet]
    simp [storeGet_storePut, Body.contentBytes]
  rw [hget]
  simp [streamToBuffer, bufferToString, utf8Decode_utf8Encode]

/-- Claim C5: when the backend get request fails, getItem maps the
NoSuchKey-coded error to the undefined result and rethrows every other
error unmodified; the NoSuchKey test is exactly the Code field comparison
of isNoSuchKeyError. -/
theorem getItem_nosuchkey_policy (bucketName key : String)
    (encoding : Option BufferEncoding) (e : S3Error) :
    getItem (fun _ => .error e) bucketName key encoding =
      (if isNoSuchKeyError e then .ok none else .error e) ∧
    (isNoSuchKeyError e = true ↔ e.Code = some "NoSuchKey") := by
  constructor
  · rfl
  · match e with
    | ⟨some code⟩ => simp [isNoSuchKeyError]
    | ⟨none⟩ => simp [isNoSuchKeyError]

/-- Claim C6: removeItem always succeeds against the honest backend: on a
missing key the backend NoSuchKey error is swallowed and the bucket is
untouched, and a second call in a row again returns success with the same
state, so the operation is idempotent. -/
theorem removeItem_idempotent_noop_on_missing (store : Store)
    (bucketName key : String) :
    (removeItemS store bucketName key).1 = .ok () ∧
    removeItemS (removeItemS store bucketName key).2 bucketName key =
      (.ok (), (removeItemS store bucketName key).2) ∧
    (storeGet store key = none →
      removeItemS store bucketName key = (.ok (), store)) := by
  refine ⟨?_, ?_, ?_⟩
  · rw [removeItemS, honestDelete]
    cases hk : storeGet store key with
    | some v => rfl
    | none => rfl
  · cases hk : storeGet store key with
    | some v =>
      have h2 : (removeItemS store bucketName key).2 = storeErase store key := by
        rw [removeItemS, honestDelete, hk]
      rw [h2, removeItemS, honestDelete]
      simp [storeGet_storeErase_self, removeItemResult, isNoSuchKeyError]
    | none =>
      have h2 : (removeItemS store bucketName key).2 = store := by
        rw [removeItemS, honestDelete, hk]
      rw [h2, removeItemS, honestDelete, hk]
      rfl
  · intro hk
    rw [removeItemS, honestDelete, hk]
    rfl

/-- Claim C6 witness: removing a key that was never written succeeds and
leaves the empty bucket unchanged, twice in a row. -/
theorem removeItem_idempotent_noop_on_missing_witness :
    (removeItemS [] "bucket" "k").1 = .ok () ∧
    removeItemS [] "bucket" "k" = (.ok (), []) :=
  ⟨(removeItem_idempotent_noop_on_missing [] "bucket" "k").1,
    (removeItem_idempotent_noop_on_missing [] "bucket" "k").2.2 rfl⟩

/-- Claim C7: for a stored value with byte content b, getItem with the
null encoding returns exactly b, while the default UTF-8 encoding returns
the UTF-8 decoding of b; and whatever chunks the response stream delivers,
the returned buffer is their full concatenation. -/
theorem getItem_null_encoding_byte_exact (bucketName key : String) (b : Buffer)
    (store : Store) (hstore : storeGet store key = some (.bytes b)) :
    getItemS store bucketName key none = .ok (some (.buf b)) ∧
    getItemS store bucketName key (some .utf8) =
      .ok (some (.str (utf8Decode b))) ∧
    ∀ chunks : List Buffer,
      getItem (fun _ => .ok { Body := chunks }) bucketName key none =
        .ok (some (.buf chunks.flatten)) := by
  have hget : honestGet store { Bucket := bucketName, Key := key } =
      .ok { Body := [b] } := by
    rw [honestGet]
    simp [hstore, Body.contentBytes]
  refine ⟨?_, ?_, ?_⟩
  · rw [getItemS, getItem, hget]
    simp [streamToBuffer]
  · rw [getItemS, getItem, hget]
    simp [streamToBuffer, bufferToString]
  · intro chunks
    rw [getItem]
    rfl

/-- Claim C7 witness: a two-chunk stream of bytes that are not valid UTF-8
text comes back byte-for-byte under the null encoding. -/
theorem getItem_null_encoding_byte_exact_witness :
    getItemS [("k", Body.bytes [255, 0])] "bucket" "k" none =
      .ok (some (.buf [255, 0])) ∧
    getItem (fun _ => .ok { Body := [[255], [0]] }) "bucket" "k" none =
      .ok (some (.buf [255, 0])) := by
  have h := getItem_null_encoding_byte_exact "bucket" "k" [255, 0]
    [("k", Body.bytes [255, 0])] rfl
  exact ⟨h.1, h.2.2 [[255], [0]]⟩

/-- Claim C1: on a backend whose first page reports IsTruncated true with
no continuation token, neither drain ever terminates: whatever fuel bound
on page requests it is given, list() and clear() exhaust it, because the
loop re-requests with an absent token instead of failing with a
contract-violation error. -/
theorem drain_truncated_without_cursor_never_terminates
    (backend : Option String → ListObjectsV2CommandOutput)
    (ht : (backend none).IsTruncated = some true)
    (hc : (backend none).NextContinuationToken = none) :
    ∀ fuel : Nat,
      listLoop backend none fuel = none ∧ clearLoop backend none fuel = none := by
  intro fuel
  induction fuel with
  | zero => exact ⟨rfl, rfl⟩
  | succ f ih =>
    constructor
    · rw [listLoop]
      simp only [ht, hc, Option.getD_some, if_true, ih.1]
    · rw [clearLoop]
      simp only [ht, hc, Option.getD_some, if_true, ih.2]

/-- Claim C1 witness: the constant contract-violating backend keeps both
drains running past any concrete fuel bound. -/
theorem drain_truncated_without_cursor_never_terminates_witness :
    listLoop contractViolatingBackend none 5 = none ∧
    clearLoop contractViolatingBackend none 5 = none :=
  drain_truncated_without_cursor_never_terminates contractViolatingBackend rfl rfl 5

/-- Claim C2: for a bucket of non-empty keys served under any pagination,
list() terminates within one page request per page and yields exactly the
bucket keys, each once, in the order the backend returns them. -/
theorem list_yields_each_key_once_any_pagination (pages : List (List String))
    (hk : ∀ k ∈ pages.flatten, k ≠ "") :
    listLoop (paginationBackend pages) none (pages.length + 1) =
      some pages.flatten := by
  have h := listLoop_paginationBackend pages hk (pages.length + 1) 0 none rfl
    (by omega) (by omega)
  simpa using h

/-- Claim C2 witness: a bucket of three keys split into pages of size one
and two is listed whole, in order. -/
theorem list_yields_each_key_once_any_pagination_witness :
    listLoop (paginationBackend [["a"], ["b", "c"]]) none 3 =
      some ["a", "b", "c"] := by
  have h := list_yields_each_key_once_any_pagination [["a"], ["b", "c"]]
    (by decide)
  exact h

/-- All-nonempty pages each contribute one batch-delete request. -/
theorem pagesBatches_length (pages : List (List String))
    (h : ∀ p ∈ pages, p ≠ []) : (pagesBatches pages).length = pages.length := by
  induction pages with
  | nil => rfl
  | cons p ps ih =>
    rw [pagesBatches, List.filterMap_cons,
      if_pos (List.length_pos.mpr (h p (by simp)))]
    simp only [List.length_cons]
    rw [← pagesBatches, ih (fun q hq => h q (by simp [hq]))]

/-- Claim C3: clear() on a paginated bucket issues exactly one
batch-delete request per non-empty page, holding that page's keys, and
none for an empty page; with all pages non-empty the number of
batch-delete calls equals the number of pages; applying the issued
batch deletes leaves the bucket empty; and a subsequent list() over the
emptied bucket yields the empty sequence. -/
theorem clear_batch_per_page_and_empties_bucket (bucket : List String)
    (pages : List (List String)) (hpages : pages.flatten = bucket) :
    clearLoop (paginationBackend pages) none (pages.length + 1) =
      some (pagesBatches pages) ∧
    ((∀ p ∈ pages, p ≠ []) → (pagesBatches pages).length = pages.length) ∧
    applyBatches bucket (pagesBatches pages) = [] ∧
    (∀ pages2 : List (List String), pages2.flatten = [] →
      listLoop (paginationBackend pages2) none (pages2.length + 1) = some []) := by
  refine ⟨?_, pagesBatches_length pages, ?_, ?_⟩
  · have h := clearLoop_paginationBackend pages (pages.length + 1) 0 none rfl
      (by omega) (by omega)
    simpa using h
  · refine applyBatches_eq_nil _ _ (fun k hk => ?_)
    exact mem_pagesBatches_of_mem_flatten pages k (hpages ▸ hk)
  · intro pages2 h2
    have h := listLoop_paginationBackend pages2
      (fun k hk => absurd (h2 ▸ hk) (List.not_mem_nil k))
      (pages2.length + 1) 0 none rfl (by omega) (by omega)
    rw [List.drop_zero, h2] at h
    exact h

/-- Claim C3 witness: a bucket of three keys split across three pages gets
exactly three batch-delete calls, one per page with that page's key; the
deletes empty the bucket, and listing the emptied bucket yields nothing. -/
theorem clear_batch_per_page_and_empties_bucket_witness :
    clearLoop (paginationBackend [["a"], ["b"], ["c"]]) none 4 =
      some [[some "a"], [some "b"], [some "c"]] ∧
    applyBatches ["a", "b", "c"] [[some "a"], [some "b"], [some "c"]] = [] ∧
    listLoop (paginationBackend [[]]) none 2 = some [] := by
  have h := clear_batch_per_page_and_empties_bucket ["a", "b", "c"]
    [["a"], ["b"], ["c"]] rfl
  exact ⟨h.1, h.2.2.1, h.2.2.2 [[]] rfl⟩

/-- Claim C8: setItem issues exactly one put request; its bucket, key and
body are the call's own arguments whatever the options hold; a text value
with no content-type override defaults the content type to plain text;
and every non-identity field the options supply overrides the default. -/
theorem setItem_single_put_fixed_identity_overridable (bucketName key : String)
    (value : Body) (opts : PutOpts) :
    (setItemRequests bucketName key value opts).length = 1 ∧
    (setItemCommand bucketName key value opts).Bucket = bucketName ∧
    (setItemCommand bucketName key value opts).Key = key ∧
    (setItemCommand bucketName key value opts).Body = some value ∧
    (∀ s : String, value = .str s → opts.ContentType = none →
      (setItemCommand bucketName key value opts).ContentType =
        some "text/plain") ∧
    (∀ c : String, opts.ContentType = some c →
      (setItemCommand bucketName key value opts).ContentType = some c) ∧
    (∀ m, opts.Metadata = some m →
      (setItemCommand bucketName key value opts).Metadata = some m) := by
  refine ⟨rfl, rfl, rfl, rfl, ?_, ?_, ?_⟩
  · intro s hs hct
    rw [hs]
    simp [setItemCommand, hct]
  · intro c hc
    simp [setItemCommand, hc]
  · intro m hm
    simp [setItemCommand, hm]

/-- Claim C8 witness: a text value defaults to the plain-text content
type, a supplied content type wins over the default, and supplied
metadata passes through. -/
theorem setItem_single_put_fixed_identity_overridable_witness :
    (setItemCommand "b" "k" (.str "hi")
        { ContentType := none, Metadata := some [("a", "1")] }).ContentType =
      some "text/plain" ∧
    (setItemCommand "b" "k" (.str "hi")
        { ContentType := some "application/json", Metadata := none }).ContentType =
      some "application/json" ∧
    (setItemCommand "b" "k" (.str "hi")
        { ContentType := none, Metadata := some [("a", "1")] }).Metadata =
      some [("a", "1")] :=
  ⟨(setItem_single_put_fixed_identity_overridable "b" "k" (.str "hi")
      { ContentType := none, Metadata := some [("a", "1")] }).2.2.2.2.1
      "hi" rfl rfl,
   (setItem_single_put_fixed_identity_overridable "b" "k" (.str "hi")
      { ContentType := some "application/json", Metadata := none }).2.2.2.2.2.1
      "application/json" rfl,
   (setItem_single_put_fixed_identity_overridable "b" "k" (.str "hi")
      { ContentType := none, Metadata := some [("a", "1")] }).2.2.2.2.2.2
      [("a", "1")] rfl⟩

/-- Claim C9: getItemPublicLink is pure string composition. With a
configured endpoint it returns the URL built from the endpoint protocol,
hostname and truthy port with bucket/key as the path; with no endpoint it
returns undefined. -/
theorem getItemPublicLink_pure_composition (ep : Endpoint)
    (bucketName key : String) :
    getItemPublicLink (some ep) bucketName key =
      some (ep.protocol ++ "//" ++ ep.hostname ++
        (match ep.port with
         | some p => if p ≠ 0 then ":" ++ toString p else ""
         | none => "") ++
        ("/" ++ (bucketName ++ "/" ++ key))) ∧
    getItemPublicLink none bucketName key = none := by
  constructor
  · rw [getItemPublicLink]
    cases hp : ep.port with
    | some p =>
      by_cases h0 : p ≠ 0
      · simp [URLObj.href, h0]
      · simp [URLObj.href, h0]
    | none => simp [URLObj.href]
  · rfl

/-- Claim C10: list() silently skips a page entry whose key is absent or
the empty string, yielding the same keys as if the entry were not there,
while clear() puts the very same entry's key, unfiltered, into its
batch-delete request. -/
theorem falsy_key_skipped_by_list_deleted_by_clear (pre post : List S3Object)
    (o : S3Object) (ho : o.Key = none ∨ o.Key = some "") :
    listLoop (onePageBackend (pre ++ o :: post)) none 1 =
      some (listPageKeys (some (pre ++ post))) ∧
    clearLoop (onePageBackend (pre ++ o :: post)) none 1 =
      some [(pre ++ o :: post).map S3Object.Key] ∧
    o.Key ∈ (pre ++ o :: post).map S3Object.Key := by
  have hfalsy : (match o.Key with
      | some k => if k = "" then none else some k
      | none => (none : Option String)) = none := by
    rcases ho with h | h
    · rw [h]
    · rw [h]; simp
  refine ⟨?_, ?_, ?_⟩
  · rw [listLoop]
    simp only [onePageBackend, Option.getD_some, listPageKeys_eq_filterMap,
      List.filterMap_append, List.filterMap_cons, hfalsy]
    simp
  · rw [clearLoop]
    simp only [onePageBackend, Option.getD_some, clearPageBatch,
      if_pos (show (pre ++ o :: post).length > 0 by
        simp only [List.length_append, List.length_cons]; omega)]
    simp
  · exact List.mem_map_of_mem S3Object.Key
      (List.mem_append_right pre (List.mem_cons_self o post))

/-- Claim C10 witness: a page holding a real key and an empty-string key
is listed without the empty key, while the clear() batch delete carries
both. -/
theorem falsy_key_skipped_by_list_deleted_by_clear_witness :
    listLoop (onePageBackend [{ Key := some "a" }, { Key := some "" }]) none 1 =
      some ["a"] ∧
    clearLoop (onePageBackend [{ Key := some "a" }, { Key := some "" }]) none 1 =
      some [[some "a", some ""]] := by
  have h := falsy_key_skipped_by_list_deleted_by_clear
    [{ Key := some "a" }] [] { Key := some "" } (Or.inr rfl)
  exact ⟨h.1, h.2.1⟩

end S3LS
